import Mathlib

set_option linter.unusedSectionVars false

/-
Shallow embedding of the query/ordering engine in src/my/core/query.py.

Modelling conventions:
  * A stream element (`Res[T]` in the source) is an `Item B`: either a record
    (`Item.obj`), an error value (`Item.exc`, carrying class name and message),
    or an `Unsortable` marker wrapping another item (`Item.unsortable`).
  * A record (`PyObj`) is a class tag, a mapping flag (`isDict`), and an
    ordered field list `String -> Option B`; a field stored as `none` models an
    attribute whose value is Python `None`.  `B` is the universe of non-`None`
    orderable values and carries a linear order; cross-type comparison failures
    of Python are outside the model, but the comparison failure caused by a
    `None` sort key is modelled (`PyErr.typeError`).
  * Python attribute access: `getattr(o, k, d)` on a record returns the stored
    field (possibly `none`) or the default; attributes of mappings, error
    objects and markers (methods, `args`, the `obj` field) are not modelled.
    `o.get(k, d)` exists only on mappings; on anything else it raises
    (`PyErr.attributeError`), exactly as in Python.
  * Iterators are modelled as eager lists; `select` returns
    `Except PyErr (List (Item B))`, an error meaning the call (or consuming its
    result) raises.  Laziness is observable in Python only in how far a
    partially consumed iterator gets before raising; claims here quantify over
    completed runs.
  * CPython `sorted(l, key=f, reverse=r)` first computes all keys in list
    order (so key errors propagate), then runs a stable sort; with at least two
    elements every adjacent pair is compared during run detection, so any
    `None` key raises `TypeError`.  The stable sort is modelled by sorting
    (key, original index) pairs lexicographically (descending key, ascending
    index when `reverse`), which is exactly stable sorting.
  * `my/core/error.py`, `my/core/types.py` and `my/core/warnings.py` are not
    part of the sources; the helpers taken from them are modelled from the
    spec and marked as such.  Diagnostics emitted by the order-function
    factory (`low(...)` warnings) are returned as a `List String`.
-/

variable {B : Type} [LinearOrder B]

/-- A record: class tag, mapping flag, ordered fields (value `none` models a
field that is present but set to Python `None`). -/
structure PyObj (B : Type) where
  cls : String
  isDict : Bool
  fields : List (String × Option B)
deriving DecidableEq

/-- A stream element: a record, an error value (class, message), or an
`Unsortable` marker wrapping the item the order function could not place. -/
inductive Item (B : Type) where
  | obj : PyObj B → Item B
  | exc : String → String → Item B
  | unsortable : Item B → Item B
deriving DecidableEq

/-- Exceptions the pipeline can raise: `QueryException` (construction errors),
`TypeError` (comparing a `None` sort key), `AttributeError` (calling `.get` on
a non-mapping), `KeyError` (shape missing from the order-value dispatch table),
and a re-raised stream error (`raise_exceptions`). -/
inductive PyErr where
  | queryException : String → PyErr
  | typeError : PyErr
  | attributeError : PyErr
  | keyError : PyErr
  | raised : String → String → PyErr
deriving DecidableEq

/-- An order function: from an item to an orderable value or absence; applying
it can raise (e.g. a mapping extractor applied to a non-mapping). -/
abbrev OrderFunc (B : Type) : Type := Item B → Except PyErr (Option B)

def Item.isExc : Item B → Bool
  | .exc _ _ => true
  | _ => false

def Item.isUnsortable : Item B → Bool
  | .unsortable _ => true
  | _ => false

/-- The one-level no-double-wrapping property: a marker wraps a non-marker. -/
def goodWrap : Item B → Bool
  | .unsortable x => !x.isUnsortable
  | _ => true

/-- A junk element used as the (never relevant) default of positional lookup. -/
def junkItem : Item B := .exc "" ""

/-- First binding of a key in a field list (dict/attribute lookup). -/
def lookupField (fs : List (String × Option B)) (k : String) : Option (Option B) :=
  match fs with
  | [] => none
  | (k2, v) :: rest => if k2 = k then some v else lookupField rest k

/-- Python `getattr(o, k, d)`: stored field value (possibly `None`) if the
attribute exists, else the default.  Never raises. -/
def pyGetattr (o : Item B) (k : String) (d : Option B) : Option B :=
  match o with
  | .obj r =>
    if r.isDict then d
    else match lookupField r.fields k with
         | some v => v
         | none => d
  | _ => d

/-- Python `o.get(k, d)`: mapping lookup with default; raises `AttributeError`
on anything that is not a mapping. -/
def dictGet (o : Item B) (k : String) (d : Option B) : Except PyErr (Option B) :=
  match o with
  | .obj r =>
    if r.isDict then
      .ok (match lookupField r.fields k with
           | some v => v
           | none => d)
    else .error .attributeError
  | _ => .error .attributeError

/-- Python `hasattr(o, k)` restricted to the modelled attributes. -/
def hasattrI (o : Item B) (k : String) : Bool :=
  match o with
  | .obj r => if r.isDict then false else (lookupField r.fields k).isSome
  | _ => false

/-- The key test used by the factory key path (`key in obj` for mappings,
`hasattr(obj, key)` otherwise). -/
def keyFindable (o : Item B) (k : String) : Bool :=
  match o with
  | .obj r => if r.isDict then (lookupField r.fields k).isSome else hasattrI o k
  | x => hasattrI x k

/-- First field whose value satisfies the predicate (scan in order). -/
def firstMatch (fs : List (String × Option B)) (w : Option B → Bool) : Option String :=
  match fs with
  | [] => none
  | (k, v) :: rest => if w v then some k else firstMatch rest w

/-- Fields sorted by name, the deterministic order of `inspect.getmembers`. -/
def sortFields (fs : List (String × Option B)) : List (String × Option B) :=
  List.insertionSort (fun a b => a.1 ≤ b.1) fs

/-- The key the Attribute Locator settles on for a sample record: mapping scan
in insertion order, else declared-order scan with the name-sorted
`inspect.getmembers` fallback (the branch structure of `attribute_func`). -/
def locatedKey (S : PyObj B) (w : Option B → Bool) : Option String :=
  if S.isDict then firstMatch S.fields w
  else
    match firstMatch S.fields w with
    | some k => some k
    | none => firstMatch (sortFields S.fields) w

/-- `attribute_func` from the source: find an attribute/key whose current value
satisfies the predicate and return an extractor with the given default.
Mappings are scanned in insertion order and yield a `.get`-based extractor;
structured records (the dataclass and NamedTuple branches coincide in the
model) are scanned in declaration order and yield a `getattr`-based extractor,
with the `inspect.getmembers` fallback scanning the same attributes sorted by
name.  Members of mappings, error objects and markers (methods, `args`, `obj`)
are not modelled, so those fall through to `none`. -/
def attribute_func (obj : Item B) (w : Option B → Bool) (d : Option B) :
    Option (OrderFunc B) :=
  match obj with
  | .obj r =>
    if r.isDict then
      match firstMatch r.fields w with
      | some k => some (fun o => dictGet o k d)
      | none => none
    else
      match firstMatch r.fields w with
      | some k => some (fun o => .ok (pyGetattr o k d))
      | none =>
        match firstMatch (sortFields r.fields) w with
        | some k => some (fun o => .ok (pyGetattr o k d))
        | none => none
  | _ => none

/-- The diagnostic the factory emits for an error sample without default
(message text abridged; it names the exception). -/
def warnMsg (c m : String) : String :=
  "While creating order_by function, encountered exception " ++ c ++ ": " ++ m

/-- `_generate_order_by_func` from the source.  Returns the order function (if
one could be determined) together with the diagnostics emitted.  For an error
sample it returns a constant function (default, or absence plus a warning);
`unwrap` (from the missing `my/core/error.py`) is the identity here because the
error case returned above it.  Then: key path (`key in obj` for mappings,
`hasattr` otherwise), predicate path via `attribute_func`, constant default,
constant absence under `force_unsortable`, else no function. -/
def _generate_order_by_func (obj_res : Item B) (key : Option String)
    (where_function : Option (Option B → Bool)) (default : Option B)
    (force_unsortable : Bool) : Option (OrderFunc B) × List String :=
  match obj_res with
  | .exc c m =>
    match default with
    | some dv => (some (fun _ => .ok (some dv)), [])
    | none => (some (fun _ => .ok none), [warnMsg c m])
  | _ =>
    let keyFunc : Option (OrderFunc B) :=
      match key with
      | some k =>
        match obj_res with
        | .obj r =>
          if r.isDict then
            if (lookupField r.fields k).isSome then some (fun o => dictGet o k default)
            else none
          else
            if hasattrI obj_res k then some (fun o => .ok (pyGetattr o k default))
            else none
        | x => if hasattrI x k then some (fun o => .ok (pyGetattr o k default)) else none
      | none => none
    match keyFunc with
    | some f => (some f, [])
    | none =>
      match (match where_function with
             | some wf => attribute_func obj_res wf default
             | none => none) with
      | some f => (some f, [])
      | none =>
        match default with
        | some dv => (some (fun _ => .ok (some dv)), [])
        | none =>
          if force_unsortable then (some (fun _ => .ok none), []) else (none, [])

/-- A structural shape key: the tuple of keys for a mapping, else the class. -/
inductive ShapeKey where
  | dictKeys : List String → ShapeKey
  | clsKey : String → ShapeKey
  | unsortableCls : ShapeKey
deriving DecidableEq

/-- `_determine_order_by_value_key` from the source. -/
def _determine_order_by_value_key : Item B → ShapeKey
  | .obj r => if r.isDict then .dictKeys (r.fields.map Prod.fst) else .clsKey r.cls
  | .exc c _ => .clsKey c
  | .unsortable _ => .unsortableCls

def lookupShape (tbl : List (ShapeKey × OrderFunc B)) (k : ShapeKey) :
    Option (OrderFunc B) :=
  match tbl with
  | [] => none
  | (k2, f) :: rest => if k2 = k then some f else lookupShape rest k

/-- The shape-to-order-function table built by `_generate_order_value_func`:
first item of each shape generates the entry (with `force_unsortable`, so the
factory always returns a function; the `none` fallback below is unreachable and
mirrors the assert in the source). -/
def buildLookupAux (acc : List (ShapeKey × OrderFunc B)) (ws : List String)
    (ov : Option B → Bool) (d : Option B) :
    List (Item B) → List (ShapeKey × OrderFunc B) × List String
  | [] => (acc, ws)
  | x :: rest =>
    let k := _determine_order_by_value_key x
    if (lookupShape acc k).isSome then buildLookupAux acc ws ov d rest
    else
      match _generate_order_by_func x none (some ov) d true with
      | (some f, w2) => buildLookupAux (acc ++ [(k, f)]) (ws ++ w2) ov d rest
      | (none, w2) =>
        buildLookupAux (acc ++ [(k, (fun _ => .ok none : OrderFunc B))]) (ws ++ w2) ov d rest

/-- `_generate_order_value_func` from the source: pre-build one order function
per shape from one copy of the stream, dispatch by shape at apply time (a shape
missing from the table is a `KeyError`, impossible for items of the scanned
stream). -/
def _generate_order_value_func (itr : List (Item B)) (order_value : Option B → Bool)
    (default : Option B) : OrderFunc B × List String :=
  let tw := buildLookupAux [] [] order_value default itr
  (fun o =>
     match lookupShape tw.1 (_determine_order_by_value_key o) with
     | some f => f o
     | none => .error .keyError,
   tw.2)

/-- A rendering of an item for the construction-error message (Python
interpolates the full repr; the model renders the structure only). -/
def itemStr : Item B → String
  | .obj r => "<" ++ r.cls ++ ">"
  | .exc c m => c ++ "(" ++ m ++ ")"
  | .unsortable x => "Unsortable(obj=" ++ itemStr x ++ ")"

/-- `_handle_generate_order_by` from the source: explicit `order_by` wins; else
`order_key` peeks the first item (empty stream short-circuits with no chosen
function; a sample on which no function can be built raises a
`QueryException` naming the key); else `order_value` tees the stream and builds
the per-shape dispatch; else a `QueryException`. -/
def _handle_generate_order_by (itr : List (Item B)) (order_by : Option (OrderFunc B))
    (order_key : Option String) (order_value : Option (Option B → Bool))
    (default : Option B) :
    Except PyErr (Option (OrderFunc B) × List (Item B) × List String) :=
  match order_by with
  | some f => .ok (some f, itr, [])
  | none =>
    match order_key with
    | some k =>
      match itr with
      | [] => .ok (none, [], [])
      | first :: rest =>
        match _generate_order_by_func first (some k) none default false with
        | (none, _) =>
          .error (.queryException
            ("Error while ordering: could not find " ++ k ++ " on " ++ itemStr first))
        | (some f, ws) => .ok (some f, first :: rest, ws)
    | none =>
      match order_value with
      | some ov =>
        let fw := _generate_order_value_func itr ov default
        .ok (some fw.1, itr, fw.2)
      | none =>
        .error (.queryException
          "Could not determine a way to order src iterable - at least one of the order args must be set")

/-- `_drop_unsorted` from the source: drop markers and items whose order value
is absent; errors from the order function propagate. -/
def _drop_unsorted (l : List (Item B)) (f : OrderFunc B) :
    Except PyErr (List (Item B)) :=
  match l with
  | [] => .ok []
  | o :: rest =>
    if o.isUnsortable then _drop_unsorted rest f
    else
      match f o with
      | .error e => .error e
      | .ok none => _drop_unsorted rest f
      | .ok (some _) =>
        match _drop_unsorted rest f with
        | .error e => .error e
        | .ok t => .ok (o :: t)

/-- `_wrap_unsorted` from the source: partition into (markers, sortable);
items already wrapped pass through unchanged, items with absent order value are
wrapped, both lists keep input order. -/
def _wrap_unsorted (l : List (Item B)) (f : OrderFunc B) :
    Except PyErr (List (Item B) × List (Item B)) :=
  match l with
  | [] => .ok ([], [])
  | o :: rest =>
    if o.isUnsortable then
      match _wrap_unsorted rest f with
      | .error e => .error e
      | .ok (u, s) => .ok (o :: u, s)
    else
      match f o with
      | .error e => .error e
      | .ok none =>
        match _wrap_unsorted rest f with
        | .error e => .error e
        | .ok (u, s) => .ok (.unsortable o :: u, s)
      | .ok (some _) =>
        match _wrap_unsorted rest f with
        | .error e => .error e
        | .ok (u, s) => .ok (u, o :: s)

/-- `_handle_unsorted` from the source: drop takes precedence over wrap; with
neither flag the stream passes through unmodified. -/
def _handle_unsorted (l : List (Item B)) (f : OrderFunc B)
    (drop_unsorted wrap_unsorted : Bool) :
    Except PyErr (List (Item B) × List (Item B)) :=
  if drop_unsorted then
    match _drop_unsorted l f with
    | .error e => .error e
    | .ok s => .ok ([], s)
  else if wrap_unsorted then _wrap_unsorted l f
  else .ok ([], l)

/-- The stable-sort comparison on (key, original index) pairs: ties on the key
compare by original position (stability); otherwise ascending keys, or
descending keys when `rev` (Python `reverse=True` reverses key comparisons but
keeps equal elements in original order). -/
def sortLe (rev : Bool) (x y : B × Nat) : Prop :=
  (x.1 = y.1 ∧ x.2 ≤ y.2) ∨ (rev = true ∧ y.1 < x.1) ∨ (rev = false ∧ x.1 < y.1)

instance sortLeDecidable (rev : Bool) :
    DecidableRel (sortLe rev : B × Nat → B × Nat → Prop) := fun x y => by
  unfold sortLe; infer_instance

instance sortLeTotal (rev : Bool) : IsTotal (B × Nat) (sortLe rev) := by
  constructor
  intro x y
  rcases lt_trichotomy x.1 y.1 with h | h | h
  · cases rev
    · exact Or.inl (Or.inr (Or.inr ⟨rfl, h⟩))
    · exact Or.inr (Or.inr (Or.inl ⟨rfl, h⟩))
  · rcases Nat.le_total x.2 y.2 with h2 | h2
    · exact Or.inl (Or.inl ⟨h, h2⟩)
    · exact Or.inr (Or.inl ⟨h.symm, h2⟩)
  · cases rev
    · exact Or.inr (Or.inr (Or.inr ⟨rfl, h⟩))
    · exact Or.inl (Or.inr (Or.inl ⟨rfl, h⟩))

instance sortLeTrans (rev : Bool) : IsTrans (B × Nat) (sortLe rev) := by
  constructor
  intro x y z hxy hyz
  rcases hxy with ⟨e1, i1⟩ | ⟨hr, h1⟩ | ⟨hr, h1⟩ <;>
    rcases hyz with ⟨e2, i2⟩ | ⟨hr2, h2⟩ | ⟨hr2, h2⟩
  · exact Or.inl ⟨e1.trans e2, i1.trans i2⟩
  · exact Or.inr (Or.inl ⟨hr2, h2.trans_le e1.symm.le⟩)
  · exact Or.inr (Or.inr ⟨hr2, lt_of_eq_of_lt e1 h2⟩)
  · exact Or.inr (Or.inl ⟨hr, lt_of_eq_of_lt e2.symm h1⟩)
  · exact Or.inr (Or.inl ⟨hr, h2.trans h1⟩)
  · exact absurd hr2 (by simp [hr])
  · exact Or.inr (Or.inr ⟨hr, lt_of_lt_of_eq h1 e2⟩)
  · exact absurd hr2 (by simp [hr])
  · exact Or.inr (Or.inr ⟨hr, h1.trans h2⟩)

instance sortLeAntisymm (rev : Bool) : IsAntisymm (B × Nat) (sortLe rev) := by
  constructor
  intro x y hxy hyx
  rcases hxy with ⟨e1, i1⟩ | ⟨hr, h1⟩ | ⟨hr, h1⟩ <;>
    rcases hyx with ⟨e2, i2⟩ | ⟨hr2, h2⟩ | ⟨hr2, h2⟩
  · exact Prod.ext e1 (Nat.le_antisymm i1 i2)
  · exact absurd h2 (by rw [e1]; exact lt_irrefl _)
  · exact absurd h2 (by rw [e1]; exact lt_irrefl _)
  · exact absurd h1 (by rw [e2]; exact lt_irrefl _)
  · exact absurd (h1.trans h2) (lt_irrefl _)
  · exact absurd hr2 (by simp [hr])
  · exact absurd h1 (by rw [e2]; exact lt_irrefl _)
  · exact absurd hr2 (by simp [hr])
  · exact absurd (h1.trans h2) (lt_irrefl _)

/-- Keys decorated with their original positions, starting at index `i`. -/
def decorateAux (i : Nat) : List B → List (B × Nat)
  | [] => []
  | k :: ks => (k, i) :: decorateAux (i + 1) ks

/-- The stable sort underlying `sorted(l, key=..., reverse=rev)`: sort the
(key, index) pairs and read the items back off by index. -/
def stableSortIdx (l : List (Item B)) (ks : List B) (rev : Bool) : List (Item B) :=
  (List.insertionSort (sortLe rev) (decorateAux 0 ks)).map (fun pr => l.getD pr.2 junkItem)

/-- All-some sequencing of the computed keys. -/
def seqOpt : List (Option B) → Option (List B)
  | [] => some []
  | none :: _ => none
  | some k :: rest =>
    match seqOpt rest with
    | some ks => some (k :: ks)
    | none => none

/-- Compute the order key of every element in order, propagating the first
raise (CPython computes all keys before comparing). -/
def mapExcept (f : OrderFunc B) : List (Item B) → Except PyErr (List (Option B))
  | [] => .ok []
  | x :: rest =>
    match f x with
    | .error e => .error e
    | .ok v =>
      match mapExcept f rest with
      | .error e => .error e
      | .ok vs => .ok (v :: vs)

/-- Python `sorted(l, key=f, reverse=rev)`: compute all keys (raises
propagate); with fewer than two elements nothing is compared; otherwise any
absent (`None`) key raises `TypeError` during comparison, else stable sort. -/
def pySorted (l : List (Item B)) (f : OrderFunc B) (rev : Bool) :
    Except PyErr (List (Item B)) :=
  match mapExcept f l with
  | .error e => .error e
  | .ok kso =>
    if l.length ≤ 1 then .ok l
    else
      match seqOpt kso with
      | none => .error .typeError
      | some ks => .ok (stableSortIdx l ks rev)

/-- `itertools.islice(itr, limit)` on the final sequence. -/
def applyLimit (limit : Option Nat) (l : List (Item B)) : List (Item B) :=
  match limit with
  | some n => l.take n
  | none => l

/-- Modelled from the spec: `my.core.error.raise_exceptions` (the module is not
under src/) re-raises the first `Err` encountered, aborting the pipeline;
items before it pass through. -/
def raiseExceptionsM : List (Item B) → Except PyErr (List (Item B))
  | [] => .ok []
  | .exc c m :: _ => .error (.raised c m)
  | x :: rest =>
    match raiseExceptionsM rest with
    | .error e => .error e
    | .ok t => .ok (x :: t)

/-- Modelled from the spec: `my.core.error.drop_exceptions` (the module is not
under src/) removes `Err` items from the stream. -/
def dropExceptionsM (l : List (Item B)) : List (Item B) :=
  l.filter (fun o => !o.isExc)

/-- Modelled from the spec: `my.core.error.warn_exceptions` (the module is not
under src/) emits a diagnostic per `Err` but keeps every item in-stream; on the
stream itself it is the identity. -/
def warnExceptionsM (l : List (Item B)) : List (Item B) := l

/-- Stages 1-3 of `select`: error policy in fixed order (raise, then drop,
then warn) followed by the `where` filter. -/
def preOrder (warn_exceptions drop_exceptions raise_exceptions : Bool)
    (w : Option (Item B → Bool)) (src : List (Item B)) :
    Except PyErr (List (Item B)) :=
  match (if raise_exceptions then raiseExceptionsM src else .ok src) with
  | .error e => .error e
  | .ok itr1 =>
    let itr2 := if drop_exceptions then dropExceptionsM itr1 else itr1
    let itr3 := if warn_exceptions then warnExceptionsM itr2 else itr2
    .ok (match w with
         | some p => itr3.filter p
         | none => itr3)

/-- Stages 4-8 of `select`: if an ordering was requested, choose the order
function (an empty peeked stream returns immediately, skipping partitioning,
sorting and the limit), partition the unsortable items, sort, reattach markers
(front normally, back under `reverse`), and truncate; with no ordering, just
reverse if requested and truncate. -/
def postFilter (itr : List (Item B)) (order_by : Option (OrderFunc B))
    (order_key : Option String) (order_value : Option (Option B → Bool))
    (default : Option B) (reverse : Bool) (limit : Option Nat)
    (drop_unsorted wrap_unsorted : Bool) : Except PyErr (List (Item B)) :=
  if order_by.isSome || order_key.isSome || order_value.isSome then
    match _handle_generate_order_by itr order_by order_key order_value default with
    | .error e => .error e
    | .ok (none, itr2, _) => .ok itr2
    | .ok (some f, itr2, _) =>
      match _handle_unsorted itr2 f drop_unsorted wrap_unsorted with
      | .error e => .error e
      | .ok (u, itr3) =>
        match pySorted itr3 f reverse with
        | .error e => .error e
        | .ok sortedl =>
          .ok (applyLimit limit (if reverse then sortedl ++ u else u ++ sortedl))
  else .ok (applyLimit limit (if reverse then itr.reverse else itr))

/-- `select` from the source (src normalisation from a callable and the
iterability check are outside the model: the input is already a sequence). -/
def select (src : List (Item B)) (w : Option (Item B → Bool))
    (order_by : Option (OrderFunc B)) (order_key : Option String)
    (order_value : Option (Option B → Bool)) (default : Option B)
    (reverse : Bool) (limit : Option Nat)
    (drop_unsorted wrap_unsorted warn_exceptions drop_exceptions raise_exceptions : Bool) :
    Except PyErr (List (Item B)) :=
  match preOrder warn_exceptions drop_exceptions raise_exceptions w src with
  | .error e => .error e
  | .ok itr =>
    postFilter itr order_by order_key order_value default reverse limit
      drop_unsorted wrap_unsorted

/-- The key an order function assigns to an item, when it succeeds. -/
def okKey (f : OrderFunc B) (x : Item B) : Option B :=
  match f x with
  | .ok (some v) => some v
  | _ => none

/-- Decidable equality for pipeline results, used to evaluate concrete runs. -/
instance exceptDecidableEq {E A : Type} [DecidableEq E] [DecidableEq A] :
    DecidableEq (Except E A) := fun a b =>
  match a, b with
  | .ok x, .ok y =>
    if h : x = y then .isTrue (by rw [h])
    else .isFalse (by intro he; cases he; exact h rfl)
  | .error x, .error y =>
    if h : x = y then .isTrue (by rw [h])
    else .isFalse (by intro he; cases he; exact h rfl)
  | .ok _, .error _ => .isFalse (by intro he; cases he)
  | .error _, .ok _ => .isFalse (by intro he; cases he)

/-! Helper lemmas about the error-policy stages. -/

theorem raiseExceptionsM_ok {src t : List (Item B)} (h : raiseExceptionsM src = .ok t) :
    t = src := by
  induction src generalizing t with
  | nil =>
    simp only [ raiseExceptionsM] at h
    cases h
    rfl
  | cons x rest ih =>
    cases x with
    | exc c m => simp [ raiseExceptionsM] at h
    | obj r =>
      simp only [ raiseExceptionsM] at h
      cases hr : raiseExceptionsM rest with
      | error e => rw [hr] at h; cases h
      | ok tr => rw [hr] at h; cases h; rw [ih hr]
    | unsortable y =>
      simp only [ raiseExceptionsM] at h
      cases hr : raiseExceptionsM rest with
      | error e => rw [hr] at h; cases h
      | ok tr => rw [hr] at h; cases h; rw [ih hr]

theorem stage234_sublist (we de : Bool) (w : Option (Item B → Bool))
    (t : List (Item B)) :
    (match w with
     | some p => (if we then warnExceptionsM (if de then dropExceptionsM t else t)
                  else (if de then dropExceptionsM t else t)).filter p
     | none => if we then warnExceptionsM (if de then dropExceptionsM t else t)
               else (if de then dropExceptionsM t else t)).Sublist t := by
  have h2 : (if de then dropExceptionsM t else t).Sublist t := by
    cases de
    · exact List.Sublist.refl _
    · exact List.filter_sublist t
  have h3 : (if we then warnExceptionsM (if de then dropExceptionsM t else t)
      else (if de then dropExceptionsM t else t)).Sublist t := by
    cases we
    · exact h2
    · exact h2
  cases w with
  | none => exact h3
  | some p => exact (List.filter_sublist _).trans h3

theorem preOrder_ok_sublist {we de re : Bool} {w : Option (Item B → Bool)}
    {src l : List (Item B)} (h : preOrder we de re w src = .ok l) : l.Sublist src := by
  cases re with
  | false =>
    unfold preOrder at h
    rw [if_neg (by simp)] at h
    rw [Except.ok.injEq] at h
    rw [← h]
    exact stage234_sublist we de w src
  | true =>
    unfold preOrder at h
    rw [if_pos rfl] at h
    cases hr : raiseExceptionsM src with
    | error e => rw [hr] at h; cases h
    | ok t =>
      rw [hr] at h
      rw [Except.ok.injEq] at h
      rw [← h, raiseExceptionsM_ok hr]
      exact stage234_sublist we de w src

theorem preOrder_id (we : Bool) (src : List (Item B)) :
    preOrder we false false none src = .ok src := by
  cases we <;> simp [ preOrder, warnExceptionsM]

/-! Helper lemmas about the unsortable partition. -/

theorem wrap_ok_lengths {l u s : List (Item B)} {f : OrderFunc B}
    (h : _wrap_unsorted l f = .ok (u, s)) : u.length + s.length = l.length := by
  induction l generalizing u s with
  | nil =>
    simp only [ _wrap_unsorted] at h
    cases h
    rfl
  | cons o rest ih =>
    simp only [ _wrap_unsorted] at h
    by_cases ho : o.isUnsortable
    · rw [if_pos ho] at h
      cases hr : _wrap_unsorted rest f with
      | error e => rw [hr] at h; cases h
      | ok us =>
        rw [hr] at h
        cases h
        have := ih (u := us.1) (s := us.2) (by rw [hr])
        simp only [List.length_cons]
        omega
    · rw [if_neg ho] at h
      cases hfo : f o with
      | error e => rw [hfo] at h; cases h
      | ok vo =>
        rw [hfo] at h
        cases vo with
        | none =>
          cases hr : _wrap_unsorted rest f with
          | error e => rw [hr] at h; cases h
          | ok us =>
            rw [hr] at h
            cases h
            have := ih (u := us.1) (s := us.2) (by rw [hr])
            simp only [List.length_cons]
            omega
        | some v =>
          cases hr : _wrap_unsorted rest f with
          | error e => rw [hr] at h; cases h
          | ok us =>
            rw [hr] at h
            cases h
            have := ih (u := us.1) (s := us.2) (by rw [hr])
            simp only [List.length_cons]
            omega

theorem wrap_ok_mem {l u s : List (Item B)} {f : OrderFunc B}
    (h : _wrap_unsorted l f = .ok (u, s)) :
    (∀ y ∈ u, y.isUnsortable = true ∧
      (y ∈ l ∨ ∃ o, o ∈ l ∧ o.isUnsortable = false ∧ y = .unsortable o)) ∧
    (∀ y ∈ s, y ∈ l ∧ y.isUnsortable = false) := by
  induction l generalizing u s with
  | nil =>
    simp only [ _wrap_unsorted] at h
    cases h
    exact ⟨fun y hy => absurd hy (List.not_mem_nil y), fun y hy => absurd hy (List.not_mem_nil y)⟩
  | cons o rest ih =>
    simp only [ _wrap_unsorted] at h
    by_cases ho : o.isUnsortable
    · rw [if_pos ho] at h
      cases hr : _wrap_unsorted rest f with
      | error e => rw [hr] at h; cases h
      | ok us =>
        rw [hr] at h
        cases h
        obtain ⟨ihu, ihs⟩ := ih (u := us.1) (s := us.2) (by rw [hr])
        constructor
        · intro y hy
          rcases List.mem_cons.mp hy with hy0 | hy1
          · subst hy0
            exact ⟨ho, Or.inl (List.mem_cons_self _ _)⟩
          · obtain ⟨h1, h2⟩ := ihu y hy1
            refine ⟨h1, ?_⟩
            rcases h2 with hm | ⟨o2, ho2, ho3, ho4⟩
            · exact Or.inl (List.mem_cons_of_mem _ hm)
            · exact Or.inr ⟨o2, List.mem_cons_of_mem _ ho2, ho3, ho4⟩
        · intro y hy
          obtain ⟨h1, h2⟩ := ihs y hy
          exact ⟨List.mem_cons_of_mem _ h1, h2⟩
    · rw [if_neg ho] at h
      cases hfo : f o with
      | error e => rw [hfo] at h; cases h
      | ok vo =>
        rw [hfo] at h
        cases vo with
        | none =>
          cases hr : _wrap_unsorted rest f with
          | error e => rw [hr] at h; cases h
          | ok us =>
            rw [hr] at h
            cases h
            obtain ⟨ihu, ihs⟩ := ih (u := us.1) (s := us.2) (by rw [hr])
            constructor
            · intro y hy
              rcases List.mem_cons.mp hy with hy0 | hy1
              · subst hy0
                refine ⟨rfl, Or.inr ⟨o, List.mem_cons_self _ _, by simpa using ho, rfl⟩⟩
              · obtain ⟨h1, h2⟩ := ihu y hy1
                refine ⟨h1, ?_⟩
                rcases h2 with hm | ⟨o2, ho2, ho3, ho4⟩
                · exact Or.inl (List.mem_cons_of_mem _ hm)
                · exact Or.inr ⟨o2, List.mem_cons_of_mem _ ho2, ho3, ho4⟩
            · intro y hy
              obtain ⟨h1, h2⟩ := ihs y hy
              exact ⟨List.mem_cons_of_mem _ h1, h2⟩
        | some v =>
          cases hr : _wrap_unsorted rest f with
          | error e => rw [hr] at h; cases h
          | ok us =>
            rw [hr] at h
            cases h
            obtain ⟨ihu, ihs⟩ := ih (u := us.1) (s := us.2) (by rw [hr])
            constructor
            · intro y hy
              obtain ⟨h1, h2⟩ := ihu y hy
              refine ⟨h1, ?_⟩
              rcases h2 with hm | ⟨o2, ho2, ho3, ho4⟩
              · exact Or.inl (List.mem_cons_of_mem _ hm)
              · exact Or.inr ⟨o2, List.mem_cons_of_mem _ ho2, ho3, ho4⟩
            · intro y hy
              rcases List.mem_cons.mp hy with hy0 | hy1
              · subst hy0
                exact ⟨List.mem_cons_self _ _, by simpa using ho⟩
              · obtain ⟨h1, h2⟩ := ihs y hy1
                exact ⟨List.mem_cons_of_mem _ h1, h2⟩

theorem wrap_ok_filter {l u s : List (Item B)} {f : OrderFunc B} {p : Item B → Bool}
    (h : _wrap_unsorted l f = .ok (u, s))
    (hp : ∀ x, p x = true → x.isUnsortable = false ∧ ∃ v, f x = .ok (some v)) :
    s.filter p = l.filter p := by
  induction l generalizing u s with
  | nil =>
    simp only [ _wrap_unsorted] at h
    cases h
    rfl
  | cons o rest ih =>
    simp only [ _wrap_unsorted] at h
    by_cases ho : o.isUnsortable
    · rw [if_pos ho] at h
      cases hr : _wrap_unsorted rest f with
      | error e => rw [hr] at h; cases h
      | ok us =>
        rw [hr] at h
        cases h
        have hpo : p o = false := by
          cases hpo : p o
          · rfl
          · exact absurd ho (by simp [(hp o hpo).1])
        rw [List.filter_cons_of_neg (by simp [hpo])]
        exact ih (by rw [hr])
    · rw [if_neg ho] at h
      cases hfo : f o with
      | error e => rw [hfo] at h; cases h
      | ok vo =>
        rw [hfo] at h
        cases vo with
        | none =>
          cases hr : _wrap_unsorted rest f with
          | error e => rw [hr] at h; cases h
          | ok us =>
            rw [hr] at h
            cases h
            have hpo : p o = false := by
              cases hpo : p o
              · rfl
              · obtain ⟨v, hv⟩ := (hp o hpo).2
                rw [hfo] at hv
                cases hv
            rw [List.filter_cons_of_neg (by simp [hpo])]
            exact ih (by rw [hr])
        | some v =>
          cases hr : _wrap_unsorted rest f with
          | error e => rw [hr] at h; cases h
          | ok us =>
            rw [hr] at h
            cases h
            cases hpo : p o
            · rw [List.filter_cons_of_neg (by simp [hpo]),
                List.filter_cons_of_neg (by simp [hpo])]
              exact ih (by rw [hr])
            · rw [List.filter_cons_of_pos (by simp [hpo]),
                List.filter_cons_of_pos (by simp [hpo])]
              rw [ih (by rw [hr])]

theorem drop_ok_mem {l s : List (Item B)} {f : OrderFunc B}
    (h : _drop_unsorted l f = .ok s) : ∀ y ∈ s, y ∈ l := by
  induction l generalizing s with
  | nil =>
    simp only [ _drop_unsorted] at h
    cases h
    intro y hy
    exact absurd hy (List.not_mem_nil y)
  | cons o rest ih =>
    simp only [ _drop_unsorted] at h
    by_cases ho : o.isUnsortable
    · rw [if_pos ho] at h
      intro y hy
      exact List.mem_cons_of_mem _ (ih h y hy)
    · rw [if_neg ho] at h
      cases hfo : f o with
      | error e => rw [hfo] at h; cases h
      | ok vo =>
        rw [hfo] at h
        cases vo with
        | none =>
          intro y hy
          exact List.mem_cons_of_mem _ (ih h y hy)
        | some v =>
          cases hr : _drop_unsorted rest f with
          | error e => rw [hr] at h; cases h
          | ok t =>
            rw [hr] at h
            cases h
            intro y hy
            rcases List.mem_cons.mp hy with hy0 | hy1
            · subst hy0; exact List.mem_cons_self _ _
            · exact List.mem_cons_of_mem _ (ih hr y hy1)

theorem drop_ok_filter {l s : List (Item B)} {f : OrderFunc B} {p : Item B → Bool}
    (h : _drop_unsorted l f = .ok s)
    (hp : ∀ x, p x = true → x.isUnsortable = false ∧ ∃ v, f x = .ok (some v)) :
    s.filter p = l.filter p := by
  induction l generalizing s with
  | nil =>
    simp only [ _drop_unsorted] at h
    cases h
    rfl
  | cons o rest ih =>
    simp only [ _drop_unsorted] at h
    by_cases ho : o.isUnsortable
    · rw [if_pos ho] at h
      have hpo : p o = false := by
        cases hpo : p o
        · rfl
        · exact absurd ho (by simp [(hp o hpo).1])
      rw [List.filter_cons_of_neg (by simp [hpo])]
      exact ih h
    · rw [if_neg ho] at h
      cases hfo : f o with
      | error e => rw [hfo] at h; cases h
      | ok vo =>
        rw [hfo] at h
        cases vo with
        | none =>
          have hpo : p o = false := by
            cases hpo : p o
            · rfl
            · obtain ⟨v, hv⟩ := (hp o hpo).2
              rw [hfo] at hv
              cases hv
          rw [List.filter_cons_of_neg (by simp [hpo])]
          exact ih h
        | some v =>
          cases hr : _drop_unsorted rest f with
          | error e => rw [hr] at h; cases h
          | ok t =>
            rw [hr] at h
            cases h
            cases hpo : p o
            · rw [List.filter_cons_of_neg (by simp [hpo]),
                List.filter_cons_of_neg (by simp [hpo])]
              exact ih hr
            · rw [List.filter_cons_of_pos (by simp [hpo]),
                List.filter_cons_of_pos (by simp [hpo])]
              rw [ih hr]

/-! Helper lemmas about key computation. -/

theorem mapExcept_ok_length {f : OrderFunc B} {l : List (Item B)} {os : List (Option B)}
    (h : mapExcept f l = .ok os) : os.length = l.length := by
  induction l generalizing os with
  | nil =>
    simp only [ mapExcept] at h
    cases h
    rfl
  | cons x rest ih =>
    simp only [ mapExcept] at h
    cases hfx : f x with
    | error e => rw [hfx] at h; cases h
    | ok v =>
      rw [hfx] at h
      cases hr : mapExcept f rest with
      | error e => rw [hr] at h; cases h
      | ok vs =>
        rw [hr] at h
        cases h
        simp [ih hr]

theorem mapExcept_ok_get {f : OrderFunc B} {l : List (Item B)} {os : List (Option B)}
    (h : mapExcept f l = .ok os) :
    ∀ (j : Nat) (x : Item B), l[j]? = some x → ∃ y, os[j]? = some y ∧ f x = .ok y := by
  induction l generalizing os with
  | nil =>
    intro j x hx
    simp at hx
  | cons a rest ih =>
    simp only [ mapExcept] at h
    cases hfa : f a with
    | error e => rw [hfa] at h; cases h
    | ok v =>
      rw [hfa] at h
      cases hr : mapExcept f rest with
      | error e => rw [hr] at h; cases h
      | ok vs =>
        rw [hr] at h
        cases h
        intro j x hx
        cases j with
        | zero =>
          rw [List.getElem?_cons_zero] at hx
          cases hx
          exact ⟨v, by simp, hfa⟩
        | succ n =>
          rw [List.getElem?_cons_succ] at hx
          obtain ⟨y, hy1, hy2⟩ := ih hr n x hx
          exact ⟨y, by rw [List.getElem?_cons_succ]; exact hy1, hy2⟩

theorem seqOpt_some_length {os : List (Option B)} {ks : List B}
    (h : seqOpt os = some ks) : ks.length = os.length := by
  induction os generalizing ks with
  | nil =>
    simp only [ seqOpt] at h
    cases h
    rfl
  | cons o rest ih =>
    cases o with
    | none => simp [ seqOpt] at h
    | some k =>
      simp only [ seqOpt] at h
      cases hr : seqOpt rest with
      | none => rw [hr] at h; cases h
      | some ks2 =>
        rw [hr] at h
        cases h
        simp [ih hr]

theorem seqOpt_some_get {os : List (Option B)} {ks : List B}
    (h : seqOpt os = some ks) :
    ∀ (j : Nat) (y : Option B), os[j]? = some y → ∃ k, ks[j]? = some k ∧ y = some k := by
  induction os generalizing ks with
  | nil =>
    intro j y hy
    simp at hy
  | cons o rest ih =>
    cases o with
    | none => simp [ seqOpt] at h
    | some k =>
      simp only [ seqOpt] at h
      cases hr : seqOpt rest with
      | none => rw [hr] at h; cases h
      | some ks2 =>
        rw [hr] at h
        cases h
        intro j y hy
        cases j with
        | zero =>
          rw [List.getElem?_cons_zero] at hy
          cases hy
          exact ⟨k, by simp, rfl⟩
        | succ n =>
          rw [List.getElem?_cons_succ] at hy
          obtain ⟨k2, hk1, hk2⟩ := ih hr n y hy
          exact ⟨k2, by rw [List.getElem?_cons_succ]; exact hk1, hk2⟩

/-! Helper lemmas about the stable sort. -/

theorem decorateAux_length (i : Nat) (ks : List B) :
    (decorateAux i ks).length = ks.length := by
  induction ks generalizing i with
  | nil => rfl
  | cons k ks ih => simp [ decorateAux, ih]

theorem decorateAux_mem {ks : List B} {i : Nat} {pr : B × Nat}
    (h : pr ∈ decorateAux i ks) :
    ∃ j : Nat, j < ks.length ∧ ks[j]? = some pr.1 ∧ pr.2 = i + j := by
  induction ks generalizing i with
  | nil => simp [ decorateAux] at h
  | cons k ks ih =>
    simp only [ decorateAux, List.mem_cons] at h
    rcases h with h0 | h1
    · subst h0
      exact ⟨0, by simp, by simp, by simp⟩
    · obtain ⟨j, hj1, hj2, hj3⟩ := ih h1
      refine ⟨j + 1, by simp; omega, by simpa using hj2, by omega⟩

theorem decorateAux_pairwise (i : Nat) (ks : List B) :
    List.Pairwise (fun x y : B × Nat => x.2 < y.2) (decorateAux i ks) := by
  induction ks generalizing i with
  | nil => exact List.Pairwise.nil
  | cons k ks ih =>
    refine List.Pairwise.cons ?_ (ih (i + 1))
    intro y hy
    obtain ⟨j, _, _, hj3⟩ := decorateAux_mem hy
    simp only
    omega

theorem decorateAux_map_getD {ks : List B} {l : List (Item B)} :
    ∀ i : Nat, i + ks.length = l.length →
    (decorateAux i ks).map (fun pr => l.getD pr.2 junkItem) = l.drop i := by
  induction ks with
  | nil =>
    intro i hi
    simp only [List.length_nil] at hi
    have hd : l.drop i = [] := List.drop_eq_nil_of_le (by omega)
    simp [ decorateAux, hd]
  | cons k ks ih =>
    intro i hi
    simp only [List.length_cons] at hi
    have hlt : i < l.length := by omega
    simp only [ decorateAux, List.map_cons]
    rw [List.getD_eq_getElem l junkItem hlt, List.drop_eq_getElem_cons hlt, ih (i + 1) (by omega)]

theorem decorateAux_keys_ne {ks : List B} (hnd : List.Pairwise (fun a b => a ≠ b) ks)
    (i : Nat) : List.Pairwise (fun x y : B × Nat => x.1 ≠ y.1) (decorateAux i ks) := by
  induction ks generalizing i with
  | nil => exact List.Pairwise.nil
  | cons k ks ih =>
    rcases List.pairwise_cons.mp hnd with ⟨hk, hks⟩
    refine List.Pairwise.cons ?_ (ih hks (i + 1))
    intro y hy
    obtain ⟨j, hj1, hj2, _⟩ := decorateAux_mem hy
    exact hk y.1 (List.getElem?_mem hj2)

theorem stableSortIdx_length (l : List (Item B)) (ks : List B) (rev : Bool) :
    (stableSortIdx l ks rev).length = ks.length := by
  simp [ stableSortIdx, List.length_insertionSort, decorateAux_length]

theorem stableSortIdx_mem {l : List (Item B)} {ks : List B} {rev : Bool} {y : Item B}
    (h : y ∈ stableSortIdx l ks rev) : y ∈ l ∨ y = junkItem := by
  simp only [ stableSortIdx, List.mem_map] at h
  obtain ⟨pr, _, hpr2⟩ := h
  by_cases hlt : pr.2 < l.length
  · left
    rw [← hpr2, List.getD_eq_getElem l junkItem hlt]
    exact List.getElem_mem hlt
  · right
    rw [← hpr2, List.getD_eq_default l junkItem (by omega)]

theorem stableSortIdx_filter {l : List (Item B)} {ks : List B} {rev : Bool}
    {p : Item B → Bool} (v : B) (hlen : ks.length = l.length)
    (hp : ∀ (j : Nat) (x : Item B) (k : B), l[j]? = some x → ks[j]? = some k →
      p x = true → k = v) :
    (stableSortIdx l ks rev).filter p = l.filter p := by
  classical
  set g : B × Nat → Item B := fun pr => l.getD pr.2 junkItem with hg
  set dec := decorateAux 0 ks with hdec
  set S := List.insertionSort (sortLe rev) dec with hS
  have hperm : S.Perm dec := List.perm_insertionSort _ _
  have hsorted : List.Sorted (sortLe rev) S := List.sorted_insertionSort _ _
  set q : B × Nat → Bool := fun pr => decide (pr.1 = v) && p (g pr) with hq
  -- members of dec link positions, keys and items
  have hmemdec : ∀ pr ∈ dec, pr.2 < l.length ∧ ks[pr.2]? = some pr.1 := by
    intro pr hpr
    obtain ⟨j, hj1, hj2, hj3⟩ := decorateAux_mem hpr
    have : pr.2 = j := by omega
    rw [this]
    exact ⟨by omega, hj2⟩
  have hcongr : ∀ pr ∈ dec, (p ∘ g) pr = q pr := by
    intro pr hpr
    simp only [Function.comp_apply]
    obtain ⟨hlt, hkey⟩ := hmemdec pr hpr
    cases hpg : p (g pr)
    · simp [hq, hpg]
    · have hx : l[pr.2]? = some (g pr) := by
        rw [hg]
        simp only
        rw [List.getD_eq_getElem l junkItem hlt]
        exact List.getElem?_eq_getElem hlt
      have := hp pr.2 (g pr) pr.1 hx hkey hpg
      simp [hq, hpg, this]
  have hcongrS : ∀ pr ∈ S, (p ∘ g) pr = q pr := fun pr hpr =>
    hcongr pr (hperm.mem_iff.mp hpr)
  -- the relation that forces equality of the two filtered pair lists
  set r2 : B × Nat → B × Nat → Prop := fun x y => x.1 = y.1 ∧ x.2 ≤ y.2 with hr2
  haveI : IsAntisymm (B × Nat) r2 := by
    constructor
    intro x y hxy hyx
    exact Prod.ext hxy.1 (Nat.le_antisymm hxy.2 hyx.2)
  have hkeysv : ∀ L : List (B × Nat), (∀ pr ∈ L, q pr = true) →
      ∀ pr ∈ L, pr.1 = v := by
    intro L hL pr hpr
    have := hL pr hpr
    rw [hq] at this
    simp only [Bool.and_eq_true, decide_eq_true_eq] at this
    exact this.1
  have hsorted1 : List.Sorted r2 (S.filter q) := by
    have hs : List.Sorted (sortLe rev) (S.filter q) := hsorted.filter q
    have hkv : ∀ pr ∈ S.filter q, pr.1 = v := by
      refine hkeysv _ ?_
      intro pr hpr
      exact (List.mem_filter.mp hpr).2
    refine hs.imp_of_mem ?_
    intro a b ha hb hab
    have hav := hkv a ha
    have hbv := hkv b hb
    rcases hab with ⟨e, hle⟩ | ⟨_, hlt⟩ | ⟨_, hlt⟩
    · exact ⟨e, hle⟩
    · exact absurd hlt (by rw [hav, hbv]; exact lt_irrefl _)
    · exact absurd hlt (by rw [hav, hbv]; exact lt_irrefl _)
  have hsorted2 : List.Sorted r2 (dec.filter q) := by
    have hs : List.Pairwise (fun x y : B × Nat => x.2 < y.2) (dec.filter q) :=
      (decorateAux_pairwise 0 ks).filter q
    have hkv : ∀ pr ∈ dec.filter q, pr.1 = v := by
      refine hkeysv _ ?_
      intro pr hpr
      exact (List.mem_filter.mp hpr).2
    refine hs.imp_of_mem ?_
    intro a b ha hb hab
    exact ⟨(hkv a ha).trans (hkv b hb).symm, Nat.le_of_lt hab⟩
  have hfiltereq : S.filter q = dec.filter q :=
    List.eq_of_perm_of_sorted (hperm.filter q) hsorted1 hsorted2
  calc (stableSortIdx l ks rev).filter p
      = (S.map g).filter p := rfl
    _ = (S.filter (p ∘ g)).map g := List.filter_map g S
    _ = (S.filter q).map g := by rw [List.filter_congr hcongrS]
    _ = (dec.filter q).map g := by rw [hfiltereq]
    _ = (dec.filter (p ∘ g)).map g := by rw [List.filter_congr hcongr]
    _ = (dec.map g).filter p := (List.filter_map g dec).symm
    _ = l.filter p := by rw [hdec, decorateAux_map_getD 0 (by omega), List.drop_zero]

theorem stableSortIdx_reverse {l : List (Item B)} {ks : List B}
    (hnd : List.Pairwise (fun a b => a ≠ b) ks) :
    stableSortIdx l ks true = (stableSortIdx l ks false).reverse := by
  classical
  set dec := decorateAux 0 ks with hdec
  set A := List.insertionSort (sortLe true) dec with hA
  set C := List.insertionSort (sortLe false) dec with hC
  have hpermA : A.Perm dec := List.perm_insertionSort _ _
  have hpermC : C.Perm dec := List.perm_insertionSort _ _
  have hkeysne : List.Pairwise (fun x y : B × Nat => x.1 ≠ y.1) dec :=
    decorateAux_keys_ne hnd 0
  have hkeysneC : List.Pairwise (fun x y : B × Nat => x.1 ≠ y.1) C :=
    (List.Perm.pairwise_iff (fun h => h.symm) hpermC).mpr hkeysne
  have hsortedA : List.Sorted (sortLe true) A := List.sorted_insertionSort _ _
  have hsortedC : List.Sorted (sortLe false) C := List.sorted_insertionSort _ _
  have hsortedCrev : List.Sorted (sortLe true) C.reverse := by
    rw [List.Sorted, List.pairwise_reverse]
    refine (hsortedC.and hkeysneC).imp_of_mem ?_
    intro a b _ _ hab
    rcases hab with ⟨⟨e, _⟩ | ⟨hf, _⟩ | ⟨_, hlt⟩, hne⟩
    · exact absurd e hne
    · cases hf
    · exact Or.inr (Or.inl ⟨rfl, hlt⟩)
  have heq : A = C.reverse :=
    List.eq_of_perm_of_sorted (hpermA.trans (hpermC.symm.trans (C.reverse_perm).symm))
      hsortedA hsortedCrev
  calc stableSortIdx l ks true
      = A.map (fun pr => l.getD pr.2 junkItem) := rfl
    _ = (C.reverse).map (fun pr => l.getD pr.2 junkItem) := by rw [heq]
    _ = (C.map (fun pr => l.getD pr.2 junkItem)).reverse := List.map_reverse _ _
    _ = (stableSortIdx l ks false).reverse := rfl

theorem list_reverse_of_short {l : List (Item B)} (h : l.length ≤ 1) : l.reverse = l := by
  cases l with
  | nil => rfl
  | cons x rest =>
    cases rest with
    | nil => rfl
    | cons y t => simp at h

theorem pySorted_ok_length {l m : List (Item B)} {f : OrderFunc B} {rev : Bool}
    (h : pySorted l f rev = .ok m) : m.length = l.length := by
  unfold pySorted at h
  cases hm : mapExcept f l with
  | error e => rw [hm] at h; cases h
  | ok kso =>
    rw [hm] at h
    dsimp only at h
    by_cases hlen : l.length ≤ 1
    · rw [if_pos hlen] at h; cases h; rfl
    · rw [if_neg hlen] at h
      cases hs : seqOpt kso with
      | none => rw [hs] at h; cases h
      | some ks =>
        rw [hs] at h
        cases h
        rw [stableSortIdx_length, seqOpt_some_length hs, mapExcept_ok_length hm]

theorem pySorted_ok_mem {l m : List (Item B)} {f : OrderFunc B} {rev : Bool}
    (h : pySorted l f rev = .ok m) : ∀ y ∈ m, y ∈ l ∨ y = junkItem := by
  unfold pySorted at h
  cases hm : mapExcept f l with
  | error e => rw [hm] at h; cases h
  | ok kso =>
    rw [hm] at h
    dsimp only at h
    by_cases hlen : l.length ≤ 1
    · rw [if_pos hlen] at h; cases h; exact fun y hy => Or.inl hy
    · rw [if_neg hlen] at h
      cases hs : seqOpt kso with
      | none => rw [hs] at h; cases h
      | some ks =>
        rw [hs] at h
        cases h
        exact fun y hy => stableSortIdx_mem hy

theorem pySorted_ok_filter {l m : List (Item B)} {f : OrderFunc B} {rev : Bool}
    {p : Item B → Bool} {v : B} (h : pySorted l f rev = .ok m)
    (hp : ∀ x, p x = true → f x = .ok (some v)) :
    m.filter p = l.filter p := by
  unfold pySorted at h
  cases hm : mapExcept f l with
  | error e => rw [hm] at h; cases h
  | ok kso =>
    rw [hm] at h
    dsimp only at h
    by_cases hlen : l.length ≤ 1
    · rw [if_pos hlen] at h; cases h; rfl
    · rw [if_neg hlen] at h
      cases hs : seqOpt kso with
      | none => rw [hs] at h; cases h
      | some ks =>
        rw [hs] at h
        cases h
        have hlenks : ks.length = l.length := by
          rw [seqOpt_some_length hs, mapExcept_ok_length hm]
        refine stableSortIdx_filter v hlenks ?_
        intro j x k hx hk hpx
        obtain ⟨y, hy1, hy2⟩ := mapExcept_ok_get hm j x hx
        obtain ⟨k2, hk1, hk2⟩ := seqOpt_some_get hs j y hy1
        have hkk2 : k = k2 := by
          have := hk.symm.trans hk1
          exact Option.some.inj this
        have hfx := hp x hpx
        rw [hy2] at hfx
        have : y = some v := Except.ok.inj hfx
        rw [this] at hk2
        have hvk2 : v = k2 := Option.some.inj hk2
        exact hkk2.trans hvk2.symm

theorem pySorted_ok_reverse {l m : List (Item B)} {f : OrderFunc B}
    (hnd : List.Pairwise (fun a b => okKey f a ≠ okKey f b) l)
    (h : pySorted l f false = .ok m) : pySorted l f true = .ok m.reverse := by
  unfold pySorted at h ⊢
  cases hm : mapExcept f l with
  | error e => rw [hm] at h; cases h
  | ok kso =>
    rw [hm] at h
    dsimp only at h ⊢
    by_cases hlen : l.length ≤ 1
    · rw [if_pos hlen] at h ⊢
      cases h
      rw [list_reverse_of_short hlen]
    · rw [if_neg hlen] at h ⊢
      cases hs : seqOpt kso with
      | none => rw [hs] at h; cases h
      | some ks =>
        rw [hs] at h
        dsimp only at h ⊢
        cases h
        have hlenks : ks.length = l.length := by
          rw [seqOpt_some_length hs, mapExcept_ok_length hm]
        have hksnd : List.Pairwise (fun a b : B => a ≠ b) ks := by
          rw [List.pairwise_iff_getElem]
          intro i j hi hj hij
          have hi2 : i < l.length := by omega
          have hj2 : j < l.length := by omega
          have hl := List.pairwise_iff_getElem.mp hnd i j hi2 hj2 hij
          obtain ⟨y1, hy11, hy12⟩ :=
            mapExcept_ok_get hm i (l[i]) (List.getElem?_eq_getElem hi2)
          obtain ⟨k1, hk11, hk12⟩ := seqOpt_some_get hs i y1 hy11
          obtain ⟨y2, hy21, hy22⟩ :=
            mapExcept_ok_get hm j (l[j]) (List.getElem?_eq_getElem hj2)
          obtain ⟨k2, hk21, hk22⟩ := seqOpt_some_get hs j y2 hy21
          have hki : ks[i] = k1 := by
            have := (List.getElem?_eq_getElem hi).symm.trans hk11
            exact Option.some.inj this
          have hkj : ks[j] = k2 := by
            have := (List.getElem?_eq_getElem hj).symm.trans hk21
            exact Option.some.inj this
          have hok1 : okKey f (l[i]) = some k1 := by
            unfold okKey
            rw [hy12, hk12]
          have hok2 : okKey f (l[j]) = some k2 := by
            unfold okKey
            rw [hy22, hk22]
          intro hkeq
          apply hl
          rw [hok1, hok2, hki.symm.trans (hkeq.trans hkj)]
        rw [stableSortIdx_reverse hksnd]

/-! Helper lemmas about order-function selection and the partition dispatcher. -/

theorem handle_ok_itr {itr itr2 : List (Item B)} {ob : Option (OrderFunc B)}
    {okey : Option String} {oval : Option (Option B → Bool)} {d : Option B}
    {fo : Option (OrderFunc B)} {ws : List String}
    (h : _handle_generate_order_by itr ob okey oval d = .ok (fo, itr2, ws)) :
    itr2 = itr ∧ (fo = none → itr = []) := by
  unfold _handle_generate_order_by at h
  cases ob with
  | some f =>
    cases h
    exact ⟨rfl, by intro hfo; cases hfo⟩
  | none =>
    cases okey with
    | some k =>
      cases itr with
      | nil =>
        cases h
        exact ⟨rfl, fun _ => rfl⟩
      | cons first rest =>
        dsimp only at h
        rcases hgen : _generate_order_by_func first (some k) none d false with ⟨_ | f2, ws2⟩
        · rw [hgen] at h
          cases h
        · rw [hgen] at h
          cases h
          exact ⟨rfl, by intro hfo; cases hfo⟩
    | none =>
      cases oval with
      | some ov =>
        cases h
        exact ⟨rfl, by intro hfo; cases hfo⟩
      | none => cases h

theorem handleUnsorted_ok {l u s : List (Item B)} {f : OrderFunc B} {du wu : Bool}
    (h : _handle_unsorted l f du wu = .ok (u, s)) :
    (du = true ∧ u = [] ∧ _drop_unsorted l f = .ok s) ∨
    (du = false ∧ wu = true ∧ _wrap_unsorted l f = .ok (u, s)) ∨
    (du = false ∧ wu = false ∧ u = [] ∧ s = l) := by
  unfold _handle_unsorted at h
  cases du with
  | true =>
    rw [if_pos rfl] at h
    cases hd : _drop_unsorted l f with
    | error e => rw [hd] at h; cases h
    | ok s2 =>
      rw [hd] at h
      cases h
      exact Or.inl ⟨rfl, rfl, rfl⟩
  | false =>
    rw [if_neg (by simp)] at h
    cases wu with
    | true =>
      rw [if_pos rfl] at h
      exact Or.inr (Or.inl ⟨rfl, rfl, h⟩)
    | false =>
      rw [if_neg (by simp)] at h
      cases h
      exact Or.inr (Or.inr ⟨rfl, rfl, rfl, rfl⟩)

/-! Small auxiliary lemmas used by the claim theorems. -/

theorem okKey_isSome {f : OrderFunc B} {x : Item B}
    (h : (okKey f x).isSome = true) : ∃ v, f x = .ok (some v) := by
  unfold okKey at h
  cases hfx : f x with
  | error e => rw [hfx] at h; simp at h
  | ok vo =>
    cases vo with
    | none => rw [hfx] at h; simp at h
    | some v => exact ⟨v, rfl⟩

theorem okKey_eq_some {f : OrderFunc B} {x : Item B} {v : B}
    (h : okKey f x = some v) : f x = .ok (some v) := by
  unfold okKey at h
  cases hfx : f x with
  | error e => rw [hfx] at h; cases h
  | ok vo =>
    cases vo with
    | none => rw [hfx] at h; cases h
    | some v2 =>
      rw [hfx] at h
      cases h
      rfl

theorem applyLimit_sublist (lim : Option Nat) (l : List (Item B)) :
    (applyLimit lim l).Sublist l := by
  cases lim with
  | none => exact List.Sublist.refl l
  | some n => exact List.take_sublist n l

theorem applyLimit_none (l : List (Item B)) : applyLimit none l = l := rfl

theorem drop_all_sortable {l : List (Item B)} {f : OrderFunc B}
    (h : ∀ x ∈ l, x.isUnsortable = false ∧ ∃ v, f x = .ok (some v)) :
    _drop_unsorted l f = .ok l := by
  induction l with
  | nil => rfl
  | cons o rest ih =>
    obtain ⟨ho, v, hv⟩ := h o (List.mem_cons_self _ _)
    have ih2 := ih (fun x hx => h x (List.mem_cons_of_mem _ hx))
    simp only [ _drop_unsorted]
    rw [if_neg (by simp [ho]), hv, ih2]

theorem wrap_all_sortable {l : List (Item B)} {f : OrderFunc B}
    (h : ∀ x ∈ l, x.isUnsortable = false ∧ ∃ v, f x = .ok (some v)) :
    _wrap_unsorted l f = .ok ([], l) := by
  induction l with
  | nil => rfl
  | cons o rest ih =>
    obtain ⟨ho, v, hv⟩ := h o (List.mem_cons_self _ _)
    have ih2 := ih (fun x hx => h x (List.mem_cons_of_mem _ hx))
    simp only [ _wrap_unsorted]
    rw [if_neg (by simp [ho]), hv, ih2]

theorem handleUnsorted_all_sortable {l : List (Item B)} {f : OrderFunc B}
    (du wu : Bool)
    (h : ∀ x ∈ l, x.isUnsortable = false ∧ ∃ v, f x = .ok (some v)) :
    _handle_unsorted l f du wu = .ok ([], l) := by
  unfold _handle_unsorted
  cases du with
  | true => rw [if_pos rfl, drop_all_sortable h]
  | false =>
    rw [if_neg (by simp)]
    cases wu with
    | true => rw [if_pos rfl, wrap_all_sortable h]
    | false => rw [if_neg (by simp)]

/-! Claim theorems. -/

/-- C10: No-ordering identity.  When none of `order_by`, `order_key`,
`order_value` is supplied, `select` performs no wrapping and no sorting: its
result is exactly the stream surviving the error policy and the `where` filter
(`preOrder`), reversed before truncation when `reverse` is set, and truncated
to `limit`. -/
theorem select_no_ordering_identity (src : List (Item B)) (w : Option (Item B → Bool))
    (d : Option B) (rev : Bool) (lim : Option Nat) (du wu we de re : Bool) :
    select src w none none none d rev lim du wu we de re =
      Except.map (fun l => applyLimit lim (if rev then l.reverse else l))
        (preOrder we de re w src) := by
  unfold select
  cases hpre : preOrder we de re w src with
  | error e => rfl
  | ok itr => rfl

/-- C6: with `order_key` set and an empty filtered stream, `select` returns an
empty result with no error (the short-circuit in `_handle_generate_order_by`
and the early return in `select`). -/
theorem select_order_key_empty_stream (src : List (Item B)) (w : Option (Item B → Bool))
    (k : String) (oval : Option (Option B → Bool)) (d : Option B) (rev : Bool)
    (lim : Option Nat) (du wu we de re : Bool)
    (hpre : preOrder we de re w src = .ok []) :
    select src w none (some k) oval d rev lim du wu we de re = .ok [] := by
  unfold select
  rw [hpre]
  rfl

/-- Witness for C6: a `where` filter that removes everything leaves an empty
stream, and `select` with `order_key` returns it unchanged without error. -/
theorem select_order_key_empty_stream_witness :
    select ([Item.obj ⟨"_Int", false, [("x", some (1 : Int))]⟩])
      (some (fun _ => false)) none (some "x") none none false none
      false true false false false = .ok [] :=
  select_order_key_empty_stream _ _ "x" none none false none false true false false false rfl

/-- C7: order-function build from an error sample never raises: with a default
it returns the constant function returning the default, and without one it
returns the constant-absence function and emits one non-fatal diagnostic
(`fun _ => Except.ok d` is the constant-default function when `d = some dv`
and the constant-absence function when `d = none`). -/
theorem genOrderBy_err_sample (c m : String) (key : Option String)
    (wf : Option (Option B → Bool)) (d : Option B) (force : Bool) :
    _generate_order_by_func (.exc c m) key wf d force =
      (some (fun _ => .ok d),
       match d with
       | some _ => []
       | none => [warnMsg c m]) := by
  cases d <;> rfl

theorem genOrderBy_key_missing {first : Item B} {k : String}
    (hexc : first.isExc = false) (hfind : keyFindable first k = false) :
    _generate_order_by_func first (some k) none none false = (none, []) := by
  cases first with
  | exc c m => simp [Item.isExc] at hexc
  | obj r =>
    unfold keyFindable at hfind
    dsimp only at hfind
    by_cases hd : r.isDict
    · rw [if_pos hd] at hfind
      simp only [ _generate_order_by_func, hd, if_pos, hfind]
      rfl
    · rw [if_neg hd] at hfind
      simp only [ _generate_order_by_func, hd, hfind]
      rfl
  | unsortable x =>
    unfold keyFindable at hfind
    dsimp only at hfind
    simp only [ _generate_order_by_func, hfind]
    rfl

/-- C5 (amended): with `order_key` set, no default, and a non-empty filtered
stream whose peeked first item is not an Err and has no matching key or
attribute, `select` raises a `QueryException` whose message names the
requested key, propagated to the caller. -/
theorem select_order_key_missing_raises {we de re du wu rev : Bool}
    {w : Option (Item B → Bool)} {src : List (Item B)} {first : Item B}
    {rest : List (Item B)} (k : String) (oval : Option (Option B → Bool))
    (lim : Option Nat)
    (hpre : preOrder we de re w src = .ok (first :: rest))
    (hexc : first.isExc = false) (hfind : keyFindable first k = false) :
    select src w none (some k) oval none rev lim du wu we de re =
      .error (.queryException
        ("Error while ordering: could not find " ++ k ++ " on " ++ itemStr first)) := by
  unfold select
  rw [hpre]
  dsimp only
  unfold postFilter
  rw [if_pos (by simp)]
  unfold _handle_generate_order_by
  dsimp only
  rw [genOrderBy_key_missing hexc hfind]

/-- Witness for C5: a record without the requested key as first item makes
`select` fail with the `QueryException` naming the key. -/
theorem select_order_key_missing_raises_witness :
    select ([Item.obj ⟨"_Int", false, [("x", some (1 : Int))]⟩]) none none (some "z")
      none none false none false true false false false =
      .error (.queryException ("Error while ordering: could not find " ++ "z" ++ " on "
        ++ itemStr (Item.obj ⟨"_Int", false, [("x", some (1 : Int))]⟩))) :=
  select_order_key_missing_raises "z" none none rfl rfl (by decide)

/-- Counterexample to C5 as frozen: when the peeked first item is an Err (which
has no matching key or attribute either), `select` does not raise; the item is
wrapped as Unsortable and the call returns normally. -/
theorem select_order_key_missing_raises_cex :
    select ([Item.exc "RuntimeError" "boom"] : List (Item Int)) none none (some "z")
      none none false none false true false false false
      = .ok [Item.unsortable (Item.exc "RuntimeError" "boom")] := rfl

/-- C8 (amended): when the factory key path fires (the sample has the key) and
a default is supplied, the built order function returns the stored absent
value (`None`) on a record where the key exists but is unset, rather than
substituting the default. -/
theorem genOrderBy_presence_wins (S r : PyObj B) (k : String)
    (wf : Option (Option B → Bool)) (dv : B) (force : Bool) {f : OrderFunc B}
    {ws : List String}
    (hgen : _generate_order_by_func (.obj S) (some k) wf (some dv) force = (some f, ws))
    (hfind : (lookupField S.fields k).isSome = true)
    (hkind : r.isDict = S.isDict)
    (hpresent : lookupField r.fields k = some none) :
    f (.obj r) = .ok none := by
  by_cases hd : S.isDict
  · have hf : f = fun o => dictGet o k (some dv) := by
      simp only [ _generate_order_by_func, hd, hfind, if_true, if_pos] at hgen
      exact (Option.some.inj (congrArg Prod.fst hgen)).symm
    rw [hf]
    simp [ dictGet, hkind, hd, hpresent]
  · have hd2 : S.isDict = false := by simpa using hd
    have hf : f = fun o => .ok (pyGetattr o k (some dv)) := by
      simp only [ _generate_order_by_func, hasattrI, hd2, hfind, Bool.false_eq_true,
        if_false] at hgen
      exact (Option.some.inj (congrArg Prod.fst hgen)).symm
    rw [hf]
    simp [ pyGetattr, hkind, hd2, hpresent]

/-- Witness for C8: a `_Int`-like sample with the key makes the factory build
the attribute extractor, and on a record where the key is present but unset it
returns absence, not the default 10. -/
theorem genOrderBy_presence_wins_witness :
    (fun o => Except.ok (pyGetattr o "z" (some (10 : Int))) : OrderFunc Int)
      (Item.obj ⟨"_B", false, [("z", none)]⟩) = Except.ok none :=
  genOrderBy_presence_wins ⟨"_A", false, [("z", some 1)]⟩ ⟨"_B", false, [("z", none)]⟩
    "z" none 10 false rfl rfl rfl rfl

/-- Counterexample to C8 as frozen: an order function built with a default
from a sample lacking the key is the constant-default function; on a record
where the key exists but is unset it returns the default 10, not the absent
value. -/
theorem genOrderBy_presence_wins_cex :
    ((_generate_order_by_func (Item.obj ⟨"_Int", false, [("y", some (1 : Int))]⟩)
      (some "z") none (some 10) false).1).map
      (fun f => f (Item.obj ⟨"d", true, [("z", none)]⟩)) = some (.ok (some 10)) := rfl

/-- C2 (amended): an extractor built by the Attribute Locator never raises on
records reachable through its access method, returning the stored value when
the located key is present and the configured default when it is absent:
extractors built from a mapping are safe on every mapping (any key set);
extractors built from a non-mapping record use `getattr` and are safe on every
item.  (Applying a mapping extractor to a non-mapping raises; see the
counterexample.) -/
theorem attribute_func_cross_shape (S r : PyObj B) (o : Item B) (k : String)
    (w : Option B → Bool) (d : Option B) {f : OrderFunc B}
    (hk : locatedKey S w = some k)
    (h : attribute_func (.obj S) w d = some f) :
    (S.isDict = true → r.isDict = true →
      f (.obj r) = .ok ((lookupField r.fields k).getD d)) ∧
    (S.isDict = false → f o = .ok (pyGetattr o k d)) ∧
    (r.isDict = S.isDict → lookupField r.fields k = none → f (.obj r) = .ok d) := by
  unfold attribute_func at h
  unfold locatedKey at hk
  dsimp only at h
  by_cases hd : S.isDict
  · rw [if_pos hd] at h hk
    cases hfm : firstMatch S.fields w with
    | none => rw [hfm] at h; cases h
    | some k2 =>
      rw [hfm] at h hk
      have hk2 : k2 = k := Option.some.inj hk
      subst hk2
      have hf : f = fun o2 => dictGet o2 k2 d := (Option.some.inj h).symm
      subst hf
      refine ⟨?_, ?_, ?_⟩
      · intro _ hr
        cases hlk : lookupField r.fields k2 <;> simp [ dictGet, hr, hlk]
      · intro hfalse
        rw [hd] at hfalse
        cases hfalse
      · intro hr hlk
        simp [ dictGet, hr.trans hd, hlk]
  · have hd2 : S.isDict = false := by simpa using hd
    rw [if_neg hd] at h hk
    cases hfm : firstMatch S.fields w with
    | some k2 =>
      rw [hfm] at h hk
      have hk2 : k2 = k := Option.some.inj hk
      subst hk2
      have hf : f = fun o2 => .ok (pyGetattr o2 k2 d) := (Option.some.inj h).symm
      subst hf
      refine ⟨?_, ?_, ?_⟩
      · intro htrue _
        rw [hd2] at htrue
        cases htrue
      · intro _
        rfl
      · intro hr hlk
        simp [ pyGetattr, hr.trans hd2, hlk]
    | none =>
      rw [hfm] at h hk
      cases hfm2 : firstMatch (sortFields S.fields) w with
      | none => rw [hfm2] at h; cases h
      | some k2 =>
        rw [hfm2] at h hk
        have hk2 : k2 = k := Option.some.inj hk
        subst hk2
        have hf : f = fun o2 => .ok (pyGetattr o2 k2 d) := (Option.some.inj h).symm
        subst hf
        refine ⟨?_, ?_, ?_⟩
        · intro htrue _
          rw [hd2] at htrue
          cases htrue
        · intro _
          rfl
        · intro hr hlk
          simp [ pyGetattr, hr.trans hd2, hlk]

/-- Witness for C2: the extractor built from one mapping, applied to a mapping
with a different key set, returns the configured default (absence) instead of
failing. -/
theorem attribute_func_cross_shape_witness :
    dictGet (Item.obj ⟨"e", true, [("y", some (7 : Int))]⟩) "x" none = .ok none :=
  (attribute_func_cross_shape ⟨"d", true, [("x", some (5 : Int))]⟩
    ⟨"e", true, [("y", some 7)]⟩ junkItem "x" (fun v => decide (v = some 5)) none
    rfl rfl).2.2 rfl rfl

/-- Counterexample to C2 as frozen: the extractor built from a mapping record,
applied to a record of a different (non-mapping) shape, raises
`AttributeError` (`.get` does not exist) instead of returning the default. -/
theorem attribute_func_cross_shape_cex :
    (attribute_func (Item.obj ⟨"d", true, [("x", some (5 : Int))]⟩)
      (fun v => decide (v = some 5)) none).map
      (fun f => f (Item.obj ⟨"_Int", false, [("x", some 3)]⟩)) =
      some (.error .attributeError) := rfl

theorem postFilter_ok_good {itr out : List (Item B)} {ob : Option (OrderFunc B)}
    {okey : Option String} {oval : Option (Option B → Bool)} {d : Option B}
    {rev : Bool} {lim : Option Nat} {du wu : Bool}
    (h : postFilter itr ob okey oval d rev lim du wu = .ok out)
    (hgood : ∀ y ∈ itr, goodWrap y = true) : ∀ y ∈ out, goodWrap y = true := by
  unfold postFilter at h
  by_cases hcond : (ob.isSome || okey.isSome || oval.isSome) = true
  · rw [if_pos hcond] at h
    cases hh : _handle_generate_order_by itr ob okey oval d with
    | error e => rw [hh] at h; cases h
    | ok tpl =>
      rw [hh] at h
      obtain ⟨fo, itr2, ws⟩ := tpl
      obtain ⟨hitr2, _⟩ := handle_ok_itr hh
      subst hitr2
      cases fo with
      | none =>
        cases h
        exact hgood
      | some f =>
        dsimp only at h
        cases hu : _handle_unsorted itr2 f du wu with
        | error e => rw [hu] at h; cases h
        | ok us =>
          rw [hu] at h
          obtain ⟨u, s⟩ := us
          dsimp only at h
          have hus : (∀ y ∈ u, goodWrap y = true) ∧ (∀ y ∈ s, y ∈ itr2) := by
            rcases handleUnsorted_ok hu with ⟨_, hu1, hdr⟩ | ⟨_, _, hw⟩ | ⟨_, _, hu1, hs1⟩
            · subst hu1
              exact ⟨fun y hy => absurd hy (List.not_mem_nil y), drop_ok_mem hdr⟩
            · obtain ⟨hmu, hms⟩ := wrap_ok_mem hw
              constructor
              · intro y hy
                rcases hmu y hy with ⟨_, hc⟩
                rcases hc with hmem | ⟨o2, ho2, ho3, ho4⟩
                · exact hgood y hmem
                · subst ho4
                  simp [ goodWrap, ho3]
              · exact fun y hy => (hms y hy).1
            · subst hu1
              subst hs1
              exact ⟨fun y hy => absurd hy (List.not_mem_nil y), fun y hy => hy⟩
          cases hs : pySorted s f rev with
          | error e => rw [hs] at h; cases h
          | ok m =>
            rw [hs] at h
            cases h
            intro y hy
            have hy2 : y ∈ (if rev = true then m ++ u else u ++ m) :=
              List.Sublist.mem hy (applyLimit_sublist lim _)
            have hy3 : y ∈ u ∨ y ∈ m := by
              cases rev <;> simp at hy2 <;> tauto
            rcases hy3 with hyu | hym
            · exact hus.1 y hyu
            · rcases pySorted_ok_mem hs y hym with hmem | hjunk
              · exact hgood y (hus.2 y hmem)
              · rw [hjunk]
                rfl
  · rw [if_neg hcond] at h
    cases h
    intro y hy
    have hy2 : y ∈ (if rev = true then itr.reverse else itr) :=
      List.Sublist.mem hy (applyLimit_sublist lim _)
    have hy3 : y ∈ itr := by
      cases rev <;> simpa using hy2
    exact hgood y hy3

/-- C3 (amended): if every marker in the input wraps a non-marker (true in
particular of any previous wrap-mode `select` output), then every marker in
`select` output wraps a non-marker: markers created by the call wrap only
non-markers, and already-wrapped items pass through rather than being
re-wrapped. -/
theorem select_no_double_wrap (src : List (Item B)) (w : Option (Item B → Bool))
    (ob : Option (OrderFunc B)) (okey : Option String)
    (oval : Option (Option B → Bool)) (d : Option B) (rev : Bool)
    (lim : Option Nat) (du wu we de re : Bool) {out : List (Item B)}
    (hsrc : src.all goodWrap = true)
    (hsel : select src w ob okey oval d rev lim du wu we de re = .ok out) :
    out.all goodWrap = true := by
  rw [List.all_eq_true] at hsrc ⊢
  unfold select at hsel
  cases hpre : preOrder we de re w src with
  | error e => rw [hpre] at hsel; cases hsel
  | ok itr =>
    rw [hpre] at hsel
    dsimp only at hsel
    have hsub := preOrder_ok_sublist hpre
    exact postFilter_ok_good hsel (fun y hy => hsrc y (List.Sublist.mem hy hsub))

/-- Witness for C3: a well-wrapped input passes the invariant to the output of
a `select` with a caller-supplied order function. -/
theorem select_no_double_wrap_witness :
    ([Item.unsortable (Item.obj ⟨"_Int", false, [("x", some (1 : Int))]⟩)]).all goodWrap
      = true :=
  select_no_double_wrap [Item.unsortable (Item.obj ⟨"_Int", false, [("x", some 1)]⟩)]
    none (some (fun _ => Except.ok (some (1 : Int)))) none none none false none
    false true false false false (by decide) rfl

/-- Counterexample to C3 as frozen: an input that already contains a marker
wrapping a marker passes through wrap mode unchanged, so the output of
`select` contains an Unsortable wrapping an Unsortable. -/
theorem select_no_double_wrap_cex :
    select [Item.unsortable (Item.unsortable (Item.obj ⟨"_Int", false, [("x", some (1 : Int))]⟩))]
      none (some (fun _ => Except.ok (some (1 : Int)))) none none none false none
      false true false false false =
      .ok [Item.unsortable (Item.unsortable (Item.obj ⟨"_Int", false, [("x", some 1)]⟩))] ∧
    goodWrap (Item.unsortable (Item.unsortable
      (Item.obj ⟨"_Int", false, [("x", some (1 : Int))]⟩))) = false :=
  ⟨rfl, rfl⟩

theorem postFilter_ok_length {itr out : List (Item B)} {ob : Option (OrderFunc B)}
    {okey : Option String} {oval : Option (Option B → Bool)} {d : Option B}
    {rev wu : Bool}
    (h : postFilter itr ob okey oval d rev none false wu = .ok out) :
    out.length = itr.length := by
  unfold postFilter at h
  by_cases hcond : (ob.isSome || okey.isSome || oval.isSome) = true
  · rw [if_pos hcond] at h
    cases hh : _handle_generate_order_by itr ob okey oval d with
    | error e => rw [hh] at h; cases h
    | ok tpl =>
      rw [hh] at h
      obtain ⟨fo, itr2, ws⟩ := tpl
      obtain ⟨hitr2, _⟩ := handle_ok_itr hh
      subst hitr2
      cases fo with
      | none =>
        cases h
        rfl
      | some f =>
        dsimp only at h
        cases hu : _handle_unsorted itr2 f false wu with
        | error e => rw [hu] at h; cases h
        | ok us =>
          rw [hu] at h
          obtain ⟨u, s⟩ := us
          dsimp only at h
          have hlen : u.length + s.length = itr2.length := by
            rcases handleUnsorted_ok hu with ⟨hfalse, _, _⟩ | ⟨_, _, hw⟩ | ⟨_, _, hu1, hs1⟩
            · cases hfalse
            · exact wrap_ok_lengths hw
            · subst hu1
              subst hs1
              simp
          cases hs : pySorted s f rev with
          | error e => rw [hs] at h; cases h
          | ok m =>
            rw [hs] at h
            cases h
            have hm := pySorted_ok_length hs
            rw [applyLimit_none]
            cases rev <;> simp [List.length_append] <;> omega
  · rw [if_neg hcond] at h
    cases h
    rw [applyLimit_none]
    cases rev <;> simp

/-- C1 (amended): total accounting.  With `drop_exceptions = false`,
`drop_unsorted = false`, no `where` filter, no `limit` and
`raise_exceptions = false`, any run of `select` that returns normally yields
exactly as many items as the input: every item appears once, possibly wrapped
in an Unsortable marker. -/
theorem select_total_accounting (src : List (Item B)) (ob : Option (OrderFunc B))
    (okey : Option String) (oval : Option (Option B → Bool)) (d : Option B)
    (rev wu we : Bool) {out : List (Item B)}
    (hsel : select src none ob okey oval d rev none false wu we false false = .ok out) :
    out.length = src.length := by
  unfold select at hsel
  rw [preOrder_id we src] at hsel
  dsimp only at hsel
  exact postFilter_ok_length hsel

/-- Witness for C1: an `order_key` run over a two-item stream in which one item
is wrapped still returns two items. -/
theorem select_total_accounting_witness :
    ([Item.unsortable (Item.obj ⟨"_B", false, [("y", some (7 : Int))]⟩),
      Item.obj ⟨"_A", false, [("z", some (1 : Int))]⟩] : List (Item Int)).length =
    ([Item.obj ⟨"_A", false, [("z", some (1 : Int))]⟩,
      Item.obj ⟨"_B", false, [("y", some (7 : Int))]⟩] : List (Item Int)).length :=
  select_total_accounting
    [Item.obj ⟨"_A", false, [("z", some 1)]⟩, Item.obj ⟨"_B", false, [("y", some 7)]⟩]
    none (some "z") none none false true false rfl

/-- Counterexample to C1 as frozen: a `where` filter (with `drop_exceptions`
and `drop_unsorted` both false) removes items, so the output count differs
from the input count. -/
theorem select_total_accounting_cex :
    (select ([Item.obj ⟨"_Int", false, [("x", some (1 : Int))]⟩])
      (some (fun _ => false)) none none none none false none false true false false
      false).map List.length ≠ Except.ok 1 := by decide

/-- C4 (amended): reverse symmetry.  For a stream with no unsortable items
under the caller-supplied order function, pairwise-distinct order values, and
no limit, the output of `select` with `reverse = true` is exactly the reversal
of the output of the same call with `reverse = false`.  (With equal order
values Python sorting is stable in both directions, so the outputs are not
mutual reversals; see the counterexample.) -/
theorem select_reverse_symmetry (src : List (Item B)) (w : Option (Item B → Bool))
    (f : OrderFunc B) (d : Option B) (du wu we de re : Bool) {out : List (Item B)}
    (hall : ∀ x ∈ src, x.isUnsortable = false ∧ (okKey f x).isSome = true)
    (hnd : src.Pairwise (fun a b => okKey f a ≠ okKey f b))
    (hsel : select src w (some f) none none d false none du wu we de re = .ok out) :
    select src w (some f) none none d true none du wu we de re = .ok out.reverse := by
  unfold select at hsel ⊢
  cases hpre : preOrder we de re w src with
  | error e => rw [hpre] at hsel; cases hsel
  | ok itr =>
    rw [hpre] at hsel
    dsimp only at hsel ⊢
    have hsub := preOrder_ok_sublist hpre
    have hall2 : ∀ x ∈ itr, x.isUnsortable = false ∧ ∃ v, f x = .ok (some v) := by
      intro x hx
      obtain ⟨h1, h2⟩ := hall x (List.Sublist.mem hx hsub)
      exact ⟨h1, okKey_isSome h2⟩
    have hnd2 : itr.Pairwise (fun a b => okKey f a ≠ okKey f b) :=
      List.Pairwise.sublist hsub hnd
    unfold postFilter at hsel ⊢
    rw [if_pos (by simp)] at hsel ⊢
    unfold _handle_generate_order_by at hsel ⊢
    dsimp only at hsel ⊢
    rw [handleUnsorted_all_sortable du wu hall2] at hsel ⊢
    dsimp only at hsel ⊢
    cases hs : pySorted itr f false with
    | error e => rw [hs] at hsel; cases hsel
    | ok m =>
      rw [hs] at hsel
      cases hsel
      rw [pySorted_ok_reverse hnd2 hs]
      simp [ applyLimit]

/-- Witness for C4: two records with distinct order values, sorted by a
caller-supplied order function; the `reverse = true` run returns the reversal
of the `reverse = false` run. -/
theorem select_reverse_symmetry_witness :
    select ([Item.obj ⟨"_A", false, [("z", some (1 : Int))]⟩,
             Item.obj ⟨"_B", false, [("z", some (2 : Int))]⟩])
      none (some (fun o => Except.ok (pyGetattr o "z" none))) none none none
      true none false true false false false =
      .ok [Item.obj ⟨"_B", false, [("z", some (2 : Int))]⟩,
           Item.obj ⟨"_A", false, [("z", some (1 : Int))]⟩] :=
  select_reverse_symmetry
    [Item.obj ⟨"_A", false, [("z", some 1)]⟩, Item.obj ⟨"_B", false, [("z", some 2)]⟩]
    none (fun o => Except.ok (pyGetattr o "z" none)) none
    false true false false false (by decide) (by decide) rfl

/-- Counterexample to C4 as frozen: with equal order values (a constant order
function) the stable sort keeps input order in both directions, so the
`reverse = true` output is not the reversal of the `reverse = false` output. -/
theorem select_reverse_symmetry_cex :
    select ([Item.obj ⟨"_A", false, [("x", some (1 : Int))]⟩,
             Item.obj ⟨"_B", false, [("x", some (2 : Int))]⟩])
      none (some (fun _ => Except.ok (some (0 : Int)))) none none none true none
      false true false false false ≠
    (select ([Item.obj ⟨"_A", false, [("x", some (1 : Int))]⟩,
              Item.obj ⟨"_B", false, [("x", some (2 : Int))]⟩])
      none (some (fun _ => Except.ok (some (0 : Int)))) none none none false none
      false true false false false).map List.reverse := by decide

/-- C9: sort stability.  For any run of `select` with a caller-supplied order
function, the sortable items of the output carrying any fixed order value `v`
form a subsequence of the input items carrying `v`: equal-valued items appear
in the output in the same relative order as in the input (with no limit and no
filtering the two filtered sequences are moreover equal). -/
theorem select_sort_stability (src : List (Item B)) (w : Option (Item B → Bool))
    (f : OrderFunc B) (d : Option B) (rev : Bool) (lim : Option Nat)
    (du wu we de re : Bool) (v : B) {out : List (Item B)}
    (hsel : select src w (some f) none none d rev lim du wu we de re = .ok out) :
    (out.filter (fun o => !o.isUnsortable && decide (okKey f o = some v))).Sublist
      (src.filter (fun o => !o.isUnsortable && decide (okKey f o = some v))) := by
  set p : Item B → Bool := fun o => !o.isUnsortable && decide (okKey f o = some v) with hp
  have hpfact : ∀ x, p x = true → x.isUnsortable = false ∧ f x = .ok (some v) := by
    intro x hx
    rw [hp] at hx
    rw [Bool.and_eq_true] at hx
    obtain ⟨ha, hb⟩ := hx
    constructor
    · cases hc : x.isUnsortable
      · rfl
      · rw [hc] at ha
        cases ha
    · exact okKey_eq_some (of_decide_eq_true hb)
  unfold select at hsel
  cases hpre : preOrder we de re w src with
  | error e => rw [hpre] at hsel; cases hsel
  | ok itr =>
    rw [hpre] at hsel
    dsimp only at hsel
    have hsub : (itr.filter p).Sublist (src.filter p) :=
      List.Sublist.filter p (preOrder_ok_sublist hpre)
    unfold postFilter at hsel
    rw [if_pos (by simp)] at hsel
    unfold _handle_generate_order_by at hsel
    dsimp only at hsel
    cases hu : _handle_unsorted itr f du wu with
    | error e => rw [hu] at hsel; cases hsel
    | ok us =>
      rw [hu] at hsel
      obtain ⟨u, s⟩ := us
      dsimp only at hsel
      have hfilters : s.filter p = itr.filter p ∧ u.filter p = [] := by
        rcases handleUnsorted_ok hu with ⟨_, hu1, hdrop⟩ | ⟨_, _, hw⟩ | ⟨_, _, hu1, hs1⟩
        · subst hu1
          exact ⟨drop_ok_filter hdrop
            (fun x hx => ⟨(hpfact x hx).1, ⟨v, (hpfact x hx).2⟩⟩), rfl⟩
        · refine ⟨wrap_ok_filter hw
            (fun x hx => ⟨(hpfact x hx).1, ⟨v, (hpfact x hx).2⟩⟩), ?_⟩
          rw [List.filter_eq_nil_iff]
          intro a ha hpa
          obtain ⟨hau, _⟩ := (wrap_ok_mem hw).1 a ha
          rw [(hpfact a hpa).1] at hau
          cases hau
        · subst hu1
          subst hs1
          exact ⟨rfl, rfl⟩
      cases hs : pySorted s f rev with
      | error e => rw [hs] at hsel; cases hsel
      | ok m =>
        rw [hs] at hsel
        cases hsel
        have hm : m.filter p = s.filter p :=
          pySorted_ok_filter hs (fun x hx => (hpfact x hx).2)
        have hL : ((if rev = true then m ++ u else u ++ m).filter p) = itr.filter p := by
          cases rev
          · rw [if_neg (by simp), List.filter_append, hfilters.2, hm, hfilters.1,
              List.nil_append]
          · rw [if_pos rfl, List.filter_append, hfilters.2, hm, hfilters.1,
              List.append_nil]
        refine List.Sublist.trans ?_ hsub
        rw [← hL]
        exact List.Sublist.filter p (applyLimit_sublist lim _)

/-- Witness for C9: two tied records keep their input order through a sorted
`select` run, so the value-1 subsequence of the output is a subsequence of the
input one. -/
theorem select_sort_stability_witness :
    (([Item.obj ⟨"_A", false, [("z", some (1 : Int))]⟩,
       Item.obj ⟨"_B", false, [("z", some (1 : Int))]⟩] : List (Item Int)).filter
      (fun o => !o.isUnsortable &&
        decide (okKey (fun o2 => Except.ok (pyGetattr o2 "z" none)) o = some 1))).Sublist
    (([Item.obj ⟨"_A", false, [("z", some (1 : Int))]⟩,
       Item.obj ⟨"_B", false, [("z", some (1 : Int))]⟩] : List (Item Int)).filter
      (fun o => !o.isUnsortable &&
        decide (okKey (fun o2 => Except.ok (pyGetattr o2 "z" none)) o = some 1))) :=
  select_sort_stability
    [Item.obj ⟨"_A", false, [("z", some 1)]⟩, Item.obj ⟨"_B", false, [("z", some 1)]⟩]
    none (fun o2 => Except.ok (pyGetattr o2 "z" none)) none false none
    false true false false false 1 rfl
